import Mathlib

/-!
# moonpay: a client binding of the MoonPay REST API

A shallow embedding of `moonpay.go`.  Go strings are embedded as Lean `String`s
(valid UTF-8 text).  The HTTP transport, the JSON codec and the Go standard
library are not part of the repository: the response of a call is an input of
the model, the JSON decoder is a parameter, and the standard-library functions
the client calls (`strings.Join`, `fmt.Sprint`, `path.Join`, `URL.String`, ...)
are modelled next to the code that calls them.
-/

namespace MoonpayGo

/-! ## Error records -/

/-- A value held in an `interface{}` after JSON decoding, as far as `fmt.Sprint`
distinguishes them: a string prints as itself, a boolean as `true`/`false`, nil as
`<nil>`; a number or a nested array/object is carried with its `%v` rendering. -/
inductive Any where
  | str (s : String)
  | bool (b : Bool)
  | null
  | other (rendering : String)
  deriving DecidableEq, Repr

/-- Go `fmt.Sprint(v)` for one operand `v` of type `interface{}`. -/
def fmtSprint : Any → String
  | .str s => s
  | .bool true => "true"
  | .bool false => "false"
  | .null => "<nil>"
  | .other r => r

/-- Go `strings.Join(elems, sep)`. -/
def stringsJoin : List String → String → String
  | [], _ => ""
  | [a], _ => a
  | a :: b :: rest, sep => a ++ sep ++ stringsJoin (b :: rest) sep

/-- One element of `RespError.Errors`.  A Go map is embedded as the list of its
entries in the order in which `range` visits them on the call at hand (Go leaves
that order unspecified, so every order is a possible input). -/
structure FieldError where
  Target : List (String × Any)
  Value : String
  Propery : String
  Constraints : List (String × Any)
  deriving DecidableEq, Repr

/-- The `RespError` struct of moonpay.go. -/
structure RespError where
  Status : String
  Errors : List FieldError
  Message : String
  Name : String
  deriving DecidableEq, Repr

/-- The inner loop of `RespError.Error`: `for _, v := range er.Constraints`
appends `fmt.Sprint(v)` to `ss`. -/
def appendConstraints (ss : List String) : List (String × Any) → List String
  | [] => ss
  | (_, v) :: rest => appendConstraints (ss ++ [fmtSprint v]) rest

/-- The outer loop of `RespError.Error`: `for _, er := range e.Errors`. -/
def appendErrors (ss : List String) : List FieldError → List String
  | [] => ss
  | er :: rest => appendErrors (appendConstraints ss er.Constraints) rest

/-- The method `func (e *RespError) Error() string`. -/
def RespError.Error (e : RespError) : String :=
  if e.Errors.length > 0 then
    stringsJoin (appendErrors [] e.Errors) "; "
  else if e.Message ≠ "" then
    e.Message
  else
    e.Status

/-! ## Standard-library functions used to build a URL -/

/-- The `lazybuf` rewind of `path.Clean` at a `..` element, `w` being `out.w - 1`:
`for out.w > dotdot && out.index(out.w) != '/' { out.w-- }`; the result is the final
`out.w`. -/
def backtrack (out : List Char) (dotdot : Nat) : Nat → Nat
  | 0 => 0
  | w + 1 =>
    if w + 1 > dotdot ∧ out.get? (w + 1) ≠ some '/' then backtrack out dotdot w else w + 1

/-- The main loop `for r < n` of Go's `path.Clean`, reading the rest `path[r:]` of the
input; `out` holds the bytes written so far (`out.w = out.length`).  The flag
`copying` is true inside the inner loop `for ; r < n && path[r] != '/'; r++` that
copies a real path element; the `/` that ends that loop is skipped at once, as the
next round of the main loop does. -/
def cleanLoop (rooted : Bool) : Bool → List Char → List Char → Nat → List Char
  | _, [], out, _ => out
  | true, c :: t, out, dotdot =>
    if c = '/' then cleanLoop rooted false t out dotdot
    else cleanLoop rooted true t (out ++ [c]) dotdot
  | false, c :: t, out, dotdot =>
    if c = '/' then
      -- empty path element
      cleanLoop rooted false t out dotdot
    else if c = '.' ∧ (t = [] ∨ t.head? = some '/') then
      -- . element
      cleanLoop rooted false t out dotdot
    else if c = '.' ∧ t.head? = some '.' ∧ (t.tail = [] ∨ t.tail.head? = some '/') then
      -- .. element: remove to last /
      match t with
      | [] => out -- not reached: t starts with '.'
      | _ :: t2 =>
        if out.length > dotdot then
          cleanLoop rooted false t2 (out.take (backtrack out dotdot (out.length - 1))) dotdot
        else if ¬ rooted then
          let out1 := if out.length > 0 then out ++ ['/'] else out
          cleanLoop rooted false t2 (out1 ++ ['.', '.']) (out1.length + 2)
        else
          cleanLoop rooted false t2 out dotdot
    else
      -- real path element: add slash if needed, then copy the element
      let out1 :=
        if (rooted ∧ out.length ≠ 1) ∨ (¬ rooted ∧ out.length ≠ 0) then out ++ ['/'] else out
      cleanLoop rooted true t (out1 ++ [c]) dotdot

/-- Go `path.Clean`. -/
def pathClean (path : String) : String :=
  if path = "" then "."
  else
    let rooted : Bool := path.data.head? = some '/'
    let out :=
      if rooted then cleanLoop true false path.data.tail ['/'] 1
      else cleanLoop false false path.data [] 0
    -- Turn empty string into "."
    if out.length = 0 then "." else String.mk out

/-- The loop of Go `path.Join` that fills `buf`. -/
def joinBuf (buf : String) : List String → String
  | [] => buf
  | e :: rest =>
    if buf.length > 0 ∨ e ≠ "" then
      joinBuf ((if buf.length > 0 then buf ++ "/" else buf) ++ e) rest
    else joinBuf buf rest

/-- Go `path.Join`. -/
def pathJoin (elem : List String) : String :=
  if (elem.map String.length).sum = 0 then ""
  else pathClean (joinBuf "" elem)

/-- The bytes of the UTF-8 encoding of a character. -/
def utf8Bytes (c : Char) : List Nat :=
  let v := c.toNat
  if v < 0x80 then [v]
  else if v < 0x800 then [0xC0 + v / 0x40, 0x80 + v % 0x40]
  else if v < 0x10000 then [0xE0 + v / 0x1000, 0x80 + v / 0x40 % 0x40, 0x80 + v % 0x40]
  else [0xF0 + v / 0x40000, 0x80 + v / 0x1000 % 0x40, 0x80 + v / 0x40 % 0x40, 0x80 + v % 0x40]

/-- The escaping modes of `net/url` that `URL.String` uses on a URL made of a scheme,
a host and a path. -/
inductive encoding where
  | encodePath
  | encodeHost
  deriving DecidableEq, Repr

/-- Go `net/url.shouldEscape(c, mode)` for a byte `c`. -/
def shouldEscape (c : Nat) (mode : encoding) : Bool :=
  -- §2.3 Unreserved characters (alphanum)
  if ('a'.toNat ≤ c ∧ c ≤ 'z'.toNat) ∨ ('A'.toNat ≤ c ∧ c ≤ 'Z'.toNat)
      ∨ ('0'.toNat ≤ c ∧ c ≤ '9'.toNat) then false
  else if mode = encoding.encodeHost ∧
      c ∈ ['!', '$', '&', '\'', '(', ')', '*', '+', ',', ';', '=', ':', '[', ']', '<', '>',
        '"'].map Char.toNat then false
  else if c ∈ ['-', '_', '.', '~'].map Char.toNat then false
  else if c ∈ ['$', '&', '+', ',', '/', ':', ';', '=', '?', '@'].map Char.toNat then
    match mode with
    | encoding.encodePath => c = '?'.toNat
    | encoding.encodeHost => true
  else true

/-- The table `upperhex` of `net/url`, read at index `n`. -/
def upperhex (n : Nat) : Char :=
  "0123456789ABCDEF".data.getD n '0'

/-- What `net/url.escape` writes for one byte. -/
def escapeByte (mode : encoding) (c : Nat) : List Char :=
  if shouldEscape c mode then ['%', upperhex (c / 16), upperhex (c % 16)]
  else [Char.ofNat c]

/-- Go `net/url.escape(s, mode)` (for the two modes above, in which a space is
escaped as `%20`). -/
def escape (s : String) (mode : encoding) : String :=
  String.mk (s.data.flatMap fun c => (utf8Bytes c).flatMap (escapeByte mode))

/-- Go `net/url.URL`, with the fields that are set in the value `New` stores; the
other fields (`Opaque`, `User`, `RawPath`, `ForceQuery`, `RawQuery`, `Fragment`,
`RawFragment`) are empty there and `url` never sets them. -/
structure URL where
  Scheme : String
  Host : String
  Path : String
  deriving DecidableEq, Repr

/-- Go `(*URL).EscapedPath` when `RawPath` is empty. -/
def URL.EscapedPath (u : URL) : String :=
  if u.Path = "*" then "*" else escape u.Path encoding.encodePath

/-- Go `(*URL).String` for a URL whose fields other than `Scheme`, `Host` and `Path`
are empty. -/
def URL.String (u : URL) : String :=
  let buf := if u.Scheme ≠ "" then u.Scheme ++ ":" else ""
  let buf :=
    if u.Scheme ≠ "" ∨ u.Host ≠ "" then
      let buf := if u.Host ≠ "" ∨ u.Path ≠ "" then buf ++ "//" else buf
      if u.Host ≠ "" then buf ++ escape u.Host encoding.encodeHost else buf
    else buf
  let path := u.EscapedPath
  let buf :=
    if path ≠ "" ∧ path.data.head? ≠ some '/' ∧ u.Host ≠ "" then buf ++ "/" else buf
  let buf :=
    if buf.length = 0 ∧ ':' ∈ path.data.takeWhile (fun c => c ≠ '/') then buf ++ "./"
    else buf
  buf ++ path

/-! ## Formatting the sub-path -/

/-- The type `uuid.UUID` (`[16]byte`) of github.com/google/uuid. -/
structure UUID where
  bytes : Fin 16 → Fin 256

/-- Go `encoding/hex.Encode` on a list of bytes (`hextable` is lower case). -/
def hexEncode (src : List (Fin 256)) : List Char :=
  src.flatMap fun v =>
    ["0123456789abcdef".data.getD (v.val / 16) '0', "0123456789abcdef".data.getD (v.val % 16) '0']

/-- The method `UUID.String` (`encodeHex`): the form
`xxxxxxxx-xxxx-xxxx-xxxx-xxxxxxxxxxxx`. -/
def UUID.String (uuid : UUID) : String :=
  let b := List.ofFn uuid.bytes
  String.mk (hexEncode (b.take 4) ++ ['-'] ++ hexEncode ((b.drop 4).take 2) ++ ['-']
    ++ hexEncode ((b.drop 6).take 2) ++ ['-'] ++ hexEncode ((b.drop 8).take 2) ++ ['-']
    ++ hexEncode (b.drop 10))

/-- An operand handed to `url` in `a ...interface{}`: the client passes strings and
`uuid.UUID` values. -/
inductive Arg where
  | str (s : String)
  | uuid (id : UUID)

/-- What the verbs `%s` and `%v` print for an operand: a string as it is, a UUID
through its `String` method. -/
def Arg.render : Arg → String
  | .str s => s
  | .uuid id => id.String

/-- The output of `reflect.TypeOf(arg).String()`. -/
def Arg.typeName : Arg → String
  | .str _ => "string"
  | .uuid _ => "uuid.UUID"

/-- The tail `%!(EXTRA type=value, ...)` that `doPrintf` writes for operands that no
verb has used. -/
def extraArgs (a : List Arg) : List Char :=
  if a.isEmpty then []
  else ("%!(EXTRA " ++ stringsJoin (a.map fun x => x.typeName ++ "=" ++ x.render) ", " ++ ")").data

/-- Go `fmt`'s `doPrintf` on a template in which every `%` is followed at once by
`s`, `v` or `%`, or ends the template. -/
def doPrintf : List Char → List Arg → List Char
  | [], a => extraArgs a
  | [c], a => (if c = '%' then "%!(NOVERB)".data else [c]) ++ extraArgs a
  | c :: v :: t, a =>
    if c = '%' then
      if v = '%' then '%' :: doPrintf t a
      else
        match a with
        | [] => ['%', '!', v] ++ "(MISSING)".data ++ doPrintf t []
        | x :: rest => x.render.data ++ doPrintf t rest
    else c :: doPrintf (v :: t) a

/-- The templates `doPrintf` above covers: every `%` is followed at once by `s`, `v`
or `%`, or is the last character. -/
def plainVerbs : List Char → Bool
  | [] => true
  | [_] => true
  | c :: v :: t =>
    if c = '%' then (v = 's' ∨ v = 'v' ∨ v = '%') && plainVerbs t
    else plainVerbs (v :: t)

/-- Go `fmt.Sprintf(p, a...)`.  On a template with another directive (a flag, a
width, a precision, an argument index, another verb) the output is `other p a`, the
library's output left abstract. -/
def fmtSprintf (other : String → List Arg → String) (p : String) (a : List Arg) : String :=
  if plainVerbs p.data then String.mk (doPrintf p.data a) else other p a

/-- Go `strings.ToLower`; `lower` is `unicode.ToLower` on the runes of a string that
is not all ASCII. -/
def stringsToLower (lower : Char → Char) (s : String) : String :=
  if s.data.all (fun c => c.toNat < 0x80) then
    -- optimize for ASCII-only strings.
    String.mk (s.data.map fun c => if 'A' ≤ c ∧ c ≤ 'Z' then Char.ofNat (c.toNat + 32) else c)
  else String.mk (s.data.map lower)

/-! ## The client -/

/-- The constant `apiAddr` parsed by `urlx.ParseWithDefaultScheme(apiAddr, "https")`:
scheme `https`, host `api.moonpay.io`, path `/v3`. -/
def apiAddr : URL :=
  { Scheme := "https", Host := "api.moonpay.io", Path := "/v3" }

/-- The struct `Moonpay`. -/
structure Moonpay where
  u : URL
  pubkey : String
  deriving DecidableEq, Repr

/-- The constructor `New(pubkey)`. -/
def New (pubkey : String) : Moonpay :=
  { pubkey := pubkey, u := apiAddr }

/-- The method `func (m *Moonpay) url(p string, a ...interface{}) string`; `other` is
the parameter of `fmtSprintf`. -/
def Moonpay.url (other : String → List Arg → String) (m : Moonpay) (p : String)
    (a : List Arg) : String :=
  let u := { m.u with Path := pathJoin ["/v3/", fmtSprintf other p a] }
  u.String

/-- The body of an HTTP response with its status, as `req.Resp` gives them. -/
structure Resp where
  StatusCode : Int
  Status : String
  Body : String
  deriving DecidableEq, Repr

/-- A Go `error` value met by the client: an error of the HTTP library, a
`*RespError`, or an error of the JSON decoder. -/
inductive Error where
  | transport (msg : String)
  | api (e : RespError)
  | decode (msg : String)
  deriving DecidableEq, Repr

/-- The struct `Address` of types.go. -/
structure Address where
  Street : String
  SubStreet : String
  Town : String
  PostCode : String
  State : String
  Country : String
  deriving DecidableEq, Repr

/-- A `time.Time`, carried as an instant in nanoseconds. -/
structure Time where
  unixNano : Int
  deriving DecidableEq, Repr

/-- A `float64`, carried as its IEEE 754 bit pattern; the client only passes such
values on. -/
structure float64 where
  bits : Nat
  deriving DecidableEq, Repr

/-- The struct `Customer` of types.go. -/
structure Customer where
  ID : UUID
  CreatedAt : Time
  UpdatedAt : Time
  FirstName : String
  LastName : String
  Email : String
  Phone : String
  IsPhoneNumberVerified : Bool
  DateOfBirth : Time
  SocialSecurityNumber : String
  LiveMode : Bool
  DefaultCurrencyId : String
  Address : Address
  ExternalCustomerID : String

/-- The struct `CustomerAuth` of types.go. -/
structure CustomerAuth where
  CSRFtoken : String
  Token : String
  Customer : Customer

/-- The zero value of `CustomerAuth` (the named result `c` before it is decoded). -/
def CustomerAuth.zero : CustomerAuth :=
  { CSRFtoken := "", Token := "",
    Customer :=
      { ID := ⟨fun _ => 0⟩, CreatedAt := ⟨0⟩, UpdatedAt := ⟨0⟩, FirstName := "", LastName := "",
        Email := "", Phone := "", IsPhoneNumberVerified := false, DateOfBirth := ⟨0⟩,
        SocialSecurityNumber := "", LiveMode := false, DefaultCurrencyId := "",
        Address := ⟨"", "", "", "", "", ""⟩, ExternalCustomerID := "" } }

/-- The struct `CustomerFields` of types.go. -/
structure CustomerFields where
  FirstName : String
  LastName : String
  Email : String
  Phone : String
  DateOfBirth : String
  SocialSecurityNumber : String
  DefaultCurrencyId : String
  Address : Option Address
  deriving DecidableEq, Repr

/-- The struct `TokenRequest` of types.go. -/
structure TokenRequest where
  Number : String
  ExpiryDate : String
  CVC : String
  Address : Address
  deriving DecidableEq, Repr

/-- The struct `TransactionRequest` of types.go. -/
structure TransactionRequest where
  BaseCurrencyAmount : float64
  ExtraFeeAmount : float64
  AreFeesIncluded : Bool
  WalletAddress : String
  WalletAddressTag : String
  BaseCurrencyCode : String
  CurrencyCode : String
  ReturnURL : String
  TokenID : String
  CardID : String
  deriving DecidableEq, Repr

/-- The struct `email_login_data`. -/
structure email_login_data where
  Email : String
  SecurityCode : String
  ExternalCustomerId : String
  deriving DecidableEq, Repr

/-- The value handed to `req.BodyJSON`, which the HTTP library sends JSON-encoded as
the body of the request. -/
inductive BodyJSON where
  | emailLogin (d : email_login_data)
  | customerFields (u : CustomerFields)
  | tokenRequest (d : TokenRequest)
  | cardData (TokenID : UUID)
  | transactionRequest (d : TransactionRequest)

/-- The HTTP method: the function of the package `req` an operation calls. -/
inductive Method where
  | Get
  | Post
  | Patch
  | Delete
  deriving DecidableEq, Repr

/-- What an operation hands to `req.Get`, `req.Post`, `req.Patch` or `req.Delete`:
the URL, the entries of the `req.QueryParam` and `req.Header` arguments, and the
`req.BodyJSON` argument if there is one. -/
structure Request where
  Method : Method
  URL : String
  QueryParam : List (String × String)
  Header : List (String × String)
  Body : Option BodyJSON

/-- The JSON decoder behind `resp.ToJSON(&v)`, which is not part of the repository:
from the response and the value `v` held before, the value `v` holds afterwards and
the error returned. -/
abbrev Decoder (α : Type) := Resp → α → α × Option Error

/-- The library behaviour the client is run against. -/
structure GoLib where
  sprintfOther : String → List Arg → String
  unicodeToLower : Char → Char
  errorJSON : Decoder RespError
  authJSON : Decoder CustomerAuth

/-- The method `handleError(resp, err)`.  `resp = none` is the nil pointer; the
outer `none` of the result is the nil-pointer panic of `resp.Response()`. -/
def Moonpay.handleError (go : GoLib) (_m : Moonpay) (resp : Option Resp) (err : Option Error) :
    Option (Option Error) :=
  match err with
  | some e => some (some e)
  | none =>
    match resp with
    | none => none
    | some r =>
      if r.StatusCode ≥ 400 then
        let err : RespError := { Status := r.Status, Errors := [], Message := "", Name := "" }
        some (some (Error.api (go.errorJSON r err).1))
      else some none

/-- The request of `Currencies`. -/
def Moonpay.Currencies (go : GoLib) (m : Moonpay) : Request :=
  { Method := .Get, URL := m.url go.sprintfOther "/currencies" [], QueryParam := [],
    Header := [], Body := none }

/-- The request of `CurrencyPrice(crypto)`. -/
def Moonpay.CurrencyPrice (go : GoLib) (m : Moonpay) (crypto : String) : Request :=
  { Method := .Get,
    URL := m.url go.sprintfOther "/currencies/%s/price"
      [.str (stringsToLower go.unicodeToLower crypto)],
    QueryParam := [("apiKey", m.pubkey)], Header := [], Body := none }

/-- The request of `CurrenciesPrice(crypto, fiat)`. -/
def Moonpay.CurrenciesPrice (go : GoLib) (m : Moonpay) (crypto fiat : List String) : Request :=
  { Method := .Get, URL := m.url go.sprintfOther "/currencies/price" [],
    QueryParam := [("apiKey", m.pubkey), ("cryptoCurrencies", stringsJoin crypto ","),
      ("fiatCurrencies", stringsJoin fiat ",")],
    Header := [], Body := none }

/-- The request of `Countries`. -/
def Moonpay.Countries (go : GoLib) (m : Moonpay) : Request :=
  { Method := .Get, URL := m.url go.sprintfOther "/countries" [], QueryParam := [],
    Header := [], Body := none }

/-- The request of `IPaddress`. -/
def Moonpay.IPaddress (go : GoLib) (m : Moonpay) : Request :=
  { Method := .Get, URL := m.url go.sprintfOther "/ip_address" [],
    QueryParam := [("apiKey", m.pubkey)], Header := [], Body := none }

/-- The request of `SecurityCode(email)`. -/
def Moonpay.SecurityCode (go : GoLib) (m : Moonpay) (email : String) : Request :=
  { Method := .Post, URL := m.url go.sprintfOther "/customers/email_login" [],
    QueryParam := [("apiKey", m.pubkey)], Header := [],
    Body := some (.emailLogin { Email := email, SecurityCode := "", ExternalCustomerId := "" }) }

/-- The request of `ConfirmRegistration(email, code, extid)`. -/
def Moonpay.ConfirmRegistration (go : GoLib) (m : Moonpay) (email code extid : String) :
    Request :=
  let data : email_login_data :=
    { Email := email, SecurityCode := code, ExternalCustomerId := extid }
  { Method := .Post, URL := m.url go.sprintfOther "/customers/email_login" [],
    QueryParam := [("apiKey", m.pubkey)], Header := [], Body := some (.emailLogin data) }

/-- The request of `CreateToken(data)`. -/
def Moonpay.CreateToken (go : GoLib) (m : Moonpay) (data : TokenRequest) : Request :=
  { Method := .Post, URL := m.url go.sprintfOther "/tokens" [],
    QueryParam := [("apiKey", m.pubkey)], Header := [], Body := some (.tokenRequest data) }

/-- The struct `MoonpayCustomer`: the embedded `*Moonpay` and the token. -/
structure MoonpayCustomer where
  Moonpay : Moonpay
  token : String
  deriving DecidableEq, Repr

/-- The method `Customer(token)`. -/
def Moonpay.Customer (m : Moonpay) (token : String) : MoonpayCustomer :=
  { Moonpay := m, token := token }

/-- The method `authHeader`. -/
def MoonpayCustomer.authHeader (m : MoonpayCustomer) : List (String × String) :=
  [("Authorization", "Bearer " ++ m.token)]

/-- The request of `RefreshToken`. -/
def MoonpayCustomer.RefreshTokenRequest (go : GoLib) (m : MoonpayCustomer) : Request :=
  { Method := .Get, URL := m.Moonpay.url go.sprintfOther "/customers/refresh_token" [],
    QueryParam := [("apiKey", m.Moonpay.pubkey)], Header := m.authHeader, Body := none }

/-- The method `RefreshToken`, from the pair `(resp, err)` that `req.Get` returns for
`RefreshTokenRequest`: the client as the call leaves it, and the results `c` and
`err`.  The outer `none` is the panic of `handleError`. -/
def MoonpayCustomer.RefreshToken (go : GoLib) (m : MoonpayCustomer) (resp : Option Resp)
    (err : Option Error) : Option (MoonpayCustomer × CustomerAuth × Option Error) :=
  let c := CustomerAuth.zero
  match m.Moonpay.handleError go resp err with
  | none => none
  | some (some err) => some (m, c, some err)
  | some none =>
    match resp with
    | none => none -- not reached: handleError has read the response
    | some r =>
      let (c, err) := go.authJSON r c
      if err ≠ none then some ({ m with token := c.Token }, c, err)
      else some (m, c, err)

/-- The request of `Info`. -/
def MoonpayCustomer.Info (go : GoLib) (m : MoonpayCustomer) : Request :=
  { Method := .Get, URL := m.Moonpay.url go.sprintfOther "/customers/me" [], QueryParam := [],
    Header := m.authHeader, Body := none }

/-- The request of `Limits`. -/
def MoonpayCustomer.Limits (go : GoLib) (m : MoonpayCustomer) : Request :=
  { Method := .Get, URL := m.Moonpay.url go.sprintfOther "/customers/me/limits" [],
    QueryParam := [], Header := m.authHeader, Body := none }

/-- The request of `Update(u)`. -/
def MoonpayCustomer.Update (go : GoLib) (m : MoonpayCustomer) (u : CustomerFields) : Request :=
  { Method := .Patch, URL := m.Moonpay.url go.sprintfOther "/customers/me" [],
    QueryParam := [("apiKey", m.Moonpay.pubkey)], Header := m.authHeader,
    Body := some (.customerFields u) }

/-- The request of `CreateCard(tokenid)`. -/
def MoonpayCustomer.CreateCard (go : GoLib) (m : MoonpayCustomer) (tokenid : UUID) : Request :=
  { Method := .Post, URL := m.Moonpay.url go.sprintfOther "/cards" [], QueryParam := [],
    Header := m.authHeader, Body := some (.cardData tokenid) }

/-- The request of `Cards`. -/
def MoonpayCustomer.Cards (go : GoLib) (m : MoonpayCustomer) : Request :=
  { Method := .Get, URL := m.Moonpay.url go.sprintfOther "/cards" [], QueryParam := [],
    Header := m.authHeader, Body := none }

/-- The request of `DeleteCard(id)`. -/
def MoonpayCustomer.DeleteCard (go : GoLib) (m : MoonpayCustomer) (id : UUID) : Request :=
  { Method := .Delete, URL := m.Moonpay.url go.sprintfOther "/cards/%s" [.uuid id],
    QueryParam := [], Header := m.authHeader, Body := none }

/-- The request of `CreateTransaction(data)`. -/
def MoonpayCustomer.CreateTransaction (go : GoLib) (m : MoonpayCustomer)
    (data : TransactionRequest) : Request :=
  { Method := .Get, URL := m.Moonpay.url go.sprintfOther "/transactions" [], QueryParam := [],
    Header := m.authHeader, Body := some (.transactionRequest data) }

/-- The request of `Transaction(id)`. -/
def MoonpayCustomer.Transaction (go : GoLib) (m : MoonpayCustomer) (id : UUID) : Request :=
  { Method := .Get, URL := m.Moonpay.url go.sprintfOther "/transactions/%s" [.uuid id],
    QueryParam := [], Header := m.authHeader, Body := none }

/-- The request of `Transactions`. -/
def MoonpayCustomer.Transactions (go : GoLib) (m : MoonpayCustomer) : Request :=
  { Method := .Get, URL := m.Moonpay.url go.sprintfOther "/transactions" [], QueryParam := [],
    Header := m.authHeader, Body := none }

/-- A library behaviour for evaluating the client at concrete inputs, which are
ASCII (there `strings.ToLower` does not consult `unicode.ToLower`): the decoders take
the body of the response as the message of the error and as the token, and report no
error. -/
def exampleLib : GoLib :=
  { sprintfOther := fun p _ => p
    unicodeToLower := Char.toLower
    errorJSON := fun r e => ({ e with Message := r.Body }, none)
    authJSON := fun r c => ({ c with Token := r.Body }, none) }

/-- An ASCII letter, an ASCII digit or `-`: the characters of the fixed path
segments of the API and of a UUID in text form. -/
def plainChar (c : Char) : Bool :=
  ('0'.toNat ≤ c.toNat ∧ c.toNat ≤ '9'.toNat) ∨ ('A'.toNat ≤ c.toNat ∧ c.toNat ≤ 'Z'.toNat)
    ∨ ('a'.toNat ≤ c.toNat ∧ c.toNat ≤ 'z'.toNat) ∨ c = '-'

/-- The buffer holds `/v3` and then nothing or a slash. -/
def underV3 (out : List Char) : Prop :=
  ∃ rest, out = ['/', 'v', '3'] ++ rest ∧ (rest = [] ∨ rest.head? = some '/')

/-- An ASCII character other than `/` that the escaping of a URL path leaves as it
is: a letter, a digit or one of `- _ . ~ $ & + , : ; = @`. -/
def pathChar (c : Char) : Bool :=
  c ≠ '/' ∧ c.toNat < 0x80 ∧ shouldEscape c.toNat encoding.encodePath = false

/-! ## Facts about the error message -/

theorem appendConstraints_eq (ss : List String) (cs : List (String × Any)) :
    appendConstraints ss cs = ss ++ cs.map (fun kv => fmtSprint kv.2) := by
  induction cs generalizing ss with
  | nil => simp [appendConstraints]
  | cons kv rest ih =>
    obtain ⟨k, v⟩ := kv
    simp [appendConstraints, ih]

theorem appendErrors_eq (ss : List String) (es : List FieldError) :
    appendErrors ss es
      = ss ++ (es.map (fun er => er.Constraints.map (fun kv => fmtSprint kv.2))).flatten := by
  induction es generalizing ss with
  | nil => simp [appendErrors]
  | cons er rest ih => simp [appendErrors, ih, appendConstraints_eq]

/-! ## Facts about `path.Clean` -/

open List

theorem cleanLoop_slash (r b : Bool) (t out : List Char) (d : Nat) :
    cleanLoop r b ('/' :: t) out d = cleanLoop r false t out d := by
  cases b <;> cases t <;> simp [cleanLoop]

theorem cleanLoop_copy (r : Bool) (c : Char) (t out : List Char) (d : Nat) (hc : c ≠ '/') :
    cleanLoop r true (c :: t) out d = cleanLoop r true t (out ++ [c]) d := by
  simp [cleanLoop, hc]

theorem cleanLoop_dot (r : Bool) (t out : List Char) (d : Nat)
    (ht : t = [] ∨ t.head? = some '/') :
    cleanLoop r false ('.' :: t) out d = cleanLoop r false t out d := by
  cases t with
  | nil => simp [cleanLoop]
  | cons c t =>
    have hc : c = '/' := by simpa using ht
    subst hc
    simp [cleanLoop]

theorem cleanLoop_dotdot (t out : List Char) (d : Nat) (ht : t = [] ∨ t.head? = some '/') :
    cleanLoop true false ('.' :: '.' :: t) out d
      = if out.length > d then
          cleanLoop true false t (out.take (backtrack out d (out.length - 1))) d
        else cleanLoop true false t out d := by
  simp [cleanLoop, ht]

theorem cleanLoop_real (c : Char) (t out : List Char) (d : Nat) (hc : c ≠ '/')
    (h1 : ¬ (c = '.' ∧ (t = [] ∨ t.head? = some '/')))
    (h2 : ¬ (c = '.' ∧ t.head? = some '.' ∧ (t.tail = [] ∨ t.tail.head? = some '/'))) :
    cleanLoop true false (c :: t) out d
      = cleanLoop true true t ((if out.length ≠ 1 then out ++ ['/'] else out) ++ [c]) d := by
  cases t with
  | nil =>
    have hcd : c ≠ '.' := by simpa using h1
    simp [cleanLoop, hc, hcd]
  | cons x t =>
    conv_lhs => rw [cleanLoop, if_neg hc, if_neg h1, if_neg h2]
    simp

theorem backtrack_ge (out : List Char) (d w : Nat) (h : d ≤ w) : d ≤ backtrack out d w := by
  induction w with
  | zero => simpa [backtrack] using h
  | succ w ih =>
    unfold backtrack
    split
    · rename_i hc
      exact ih (by omega)
    · exact h

theorem head?_take_of_pos (out : List Char) (k : Nat) (hk : 1 ≤ k) :
    (out.take k).head? = out.head? := by
  cases out with
  | nil => simp
  | cons x xs =>
    cases k with
    | zero => omega
    | succ k => simp

theorem cleanLoop_rooted (n : Nat) :
    ∀ (t : List Char), t.length ≤ n → ∀ (b : Bool) (out : List Char),
      out.head? = some '/' → (cleanLoop true b t out 1).head? = some '/' := by
  induction n with
  | zero =>
    intro t ht b out hout
    have : t = [] := List.length_eq_zero.mp (by omega)
    subst this
    simpa [cleanLoop] using hout
  | succ n ih =>
    intro t ht b out hout
    cases t with
    | nil => simpa [cleanLoop] using hout
    | cons c t =>
      have hlen : t.length ≤ n := by simpa using ht
      have happ : ∀ l : List Char, (out ++ l).head? = some '/' := by
        intro l
        cases out with
        | nil => simp at hout
        | cons x xs => simpa using hout
      by_cases hc : c = '/'
      · subst hc
        rw [cleanLoop_slash]
        exact ih t hlen false out hout
      · cases b with
        | true =>
          rw [cleanLoop_copy _ _ _ _ _ hc]
          exact ih t hlen true _ (happ _)
        | false =>
          by_cases h1 : c = '.' ∧ (t = [] ∨ t.head? = some '/')
          · obtain ⟨rfl, h1⟩ := h1
            rw [cleanLoop_dot _ _ _ _ h1]
            exact ih t hlen false out hout
          · by_cases h2 : c = '.' ∧ t.head? = some '.' ∧ (t.tail = [] ∨ t.tail.head? = some '/')
            · obtain ⟨rfl, h2, h3⟩ := h2
              cases t with
              | nil => simp at h2
              | cons x t2 =>
                have hx : x = '.' := by simpa using h2
                subst hx
                have hlen2 : t2.length ≤ n := by simp at hlen; omega
                rw [cleanLoop_dotdot _ _ _ (by simpa using h3)]
                split
                · rename_i hgt
                  apply ih t2 hlen2
                  rw [head?_take_of_pos _ _ (backtrack_ge _ _ _ (by omega))]
                  exact hout
                · exact ih t2 hlen2 false out hout
            · rw [cleanLoop_real c t out 1 hc h1 h2]
              apply ih t hlen
              split
              · rw [List.append_assoc]; exact happ _
              · exact happ _



theorem splitOn_slash_cons (c : Char) (t : List Char) :
    (c :: t).splitOn '/'
      = if c = '/' then [] :: t.splitOn '/' else (t.splitOn '/').modifyHead (cons c) := by
  simp [List.splitOn, List.splitOnP_cons]

theorem splitOn_slash_ne_nil (t : List Char) : t.splitOn '/' ≠ [] := by
  simp [List.splitOn, List.splitOnP_ne_nil]

theorem cleanLoop_underV3 (t : List Char) :
    ∀ (b : Bool) (out : List Char),
      (if b then ['.', '.'] ∉ (t.splitOn '/').tail else ['.', '.'] ∉ t.splitOn '/') →
      (if b then ∃ rest, out = ['/', 'v', '3', '/'] ++ rest else underV3 out) →
      underV3 (cleanLoop true b t out 1) := by
  induction t with
  | nil =>
    intro b out _ hout
    cases b with
    | false => simpa [cleanLoop] using hout
    | true =>
      obtain ⟨rest, rfl⟩ := by simpa using hout
      simp only [cleanLoop]
      exact ⟨'/' :: rest, rfl, Or.inr rfl⟩
  | cons c t ih =>
    intro b out hnd hout
    rw [splitOn_slash_cons] at hnd
    by_cases hc : c = '/'
    · subst hc
      rw [cleanLoop_slash]
      apply ih false
      · cases b <;> simpa using hnd
      · cases b with
        | false => simpa using hout
        | true =>
          obtain ⟨rest, rfl⟩ := by simpa using hout
          exact ⟨'/' :: rest, rfl, Or.inr rfl⟩
    · rw [if_neg hc] at hnd
      obtain ⟨e, es, hsplit⟩ : ∃ e es, t.splitOn '/' = e :: es := by
        cases h : t.splitOn '/' with
        | nil => exact absurd h (splitOn_slash_ne_nil t)
        | cons e es => exact ⟨e, es, rfl⟩
      rw [hsplit] at hnd
      simp only [List.modifyHead_cons, List.tail_cons] at hnd
      cases b with
      | true =>
        rw [cleanLoop_copy _ _ _ _ _ hc]
        apply ih true
        · simpa [hsplit] using hnd
        · obtain ⟨rest, rfl⟩ := by simpa using hout
          exact ⟨rest ++ [c], by simp⟩
      | false =>
        simp only [Bool.false_eq_true, if_false, List.mem_cons, not_or] at hnd
        obtain ⟨hne, hes⟩ := hnd
        have hout' : underV3 out := by simpa using hout
        by_cases h1 : c = '.' ∧ (t = [] ∨ t.head? = some '/')
        · obtain ⟨rfl, h1⟩ := h1
          rw [cleanLoop_dot _ _ _ _ h1]
          apply ih false
          · simp only [Bool.false_eq_true, if_false, hsplit, List.mem_cons, not_or]
            refine ⟨?_, hes⟩
            intro h
            subst h
            rcases h1 with h1 | h1
            · subst h1; simp at hsplit
            · cases t with
              | nil => simp at h1
              | cons x t =>
                have hx : x = '/' := by simpa using h1
                subst hx
                rw [splitOn_slash_cons] at hsplit
                simp at hsplit
          · simpa using hout'
        · by_cases h2 : c = '.' ∧ t.head? = some '.' ∧ (t.tail = [] ∨ t.tail.head? = some '/')
          · exfalso
            obtain ⟨rfl, h2, h3⟩ := h2
            cases t with
            | nil => simp at h2
            | cons x t2 =>
              have hx : x = '.' := by simpa using h2
              subst hx
              rw [splitOn_slash_cons] at hsplit
              simp only [Char.reduceEq, if_false] at hsplit
              have he : e = ['.'] := by
                rcases (by simpa using h3 : t2 = [] ∨ t2.head? = some '/') with h3 | h3
                · subst h3; simp at hsplit; exact hsplit.1.symm
                · cases t2 with
                  | nil => simp at h3
                  | cons y t3 =>
                    have hy : y = '/' := by simpa using h3
                    subst hy
                    rw [splitOn_slash_cons] at hsplit
                    simp at hsplit
                    exact hsplit.1.symm
              exact hne (by rw [he])
          · rw [cleanLoop_real c t out 1 hc h1 h2]
            apply ih true
            · simpa [hsplit] using hes
            · obtain ⟨rest, rfl, hrest⟩ := hout'
              have hl : (['/', 'v', '3'] ++ rest).length ≠ 1 := by simp
              rw [if_pos hl]
              rcases hrest with hrest | hrest
              · subst hrest
                exact ⟨[c], by simp⟩
              · cases rest with
                | nil => simp at hrest
                | cons y r =>
                  have hy : y = '/' := by simpa using hrest
                  subst hy
                  exact ⟨r ++ ['/', c], by simp⟩

theorem cleanLoop_skip_slashes (r : Bool) (n : Nat) (t out : List Char) (d : Nat) :
    cleanLoop r false (replicate n '/' ++ t) out d = cleanLoop r false t out d := by
  induction n with
  | zero => rfl
  | succ n ih => simp [replicate_succ, cleanLoop_slash, ih]

theorem cleanLoop_only_slashes (r b : Bool) (n : Nat) (out : List Char) (d : Nat) :
    cleanLoop r b (replicate n '/') out d = out := by
  cases n with
  | zero => cases b <;> simp [cleanLoop]
  | succ n =>
    have h := cleanLoop_skip_slashes r n [] out d
    simp only [append_nil] at h
    rw [replicate_succ, cleanLoop_slash, h, cleanLoop]

theorem joinBuf_v3 (s : String) : joinBuf "" ["/v3/", s] = "/v3//" ++ s := by
  have h1 : ("" : String).length = 0 := rfl
  have h2 : ("" ++ "/v3/" : String) = "/v3/" := rfl
  have h3 : ("/v3/" : String).length = 4 := rfl
  have h4 : ("/v3/" ++ "/" : String) = "/v3//" := rfl
  simp [joinBuf, h1, h2, h3, h4]

theorem pathJoin_v3 (s : String) :
    pathJoin ["/v3/", s]
      = if (cleanLoop true false s.data ['/', 'v', '3'] 1).length = 0 then "."
        else String.mk (cleanLoop true false s.data ['/', 'v', '3'] 1) := by
  have h1 : ¬ (([("/v3/" : String), s].map String.length).sum = 0) := by
    have h3 : ("/v3/" : String).length = 4 := rfl
    simp [h3]
  have h5 : ("/v3//" ++ s : String).data = '/' :: 'v' :: '3' :: '/' :: '/' :: s.data := by
    rw [String.data_append]; rfl
  have h6 : ¬ (("/v3//" ++ s : String) = "") := by
    intro h
    have := congrArg String.data h
    rw [h5] at this
    simp at this
  unfold pathJoin
  rw [if_neg h1, joinBuf_v3]
  unfold pathClean
  rw [if_neg h6, h5]
  simp [cleanLoop, cleanLoop_slash]

/-! ## Facts about `URL.String` -/

theorem escape_data (s : String) (mode : encoding) :
    (escape s mode).data = s.data.flatMap fun c => (utf8Bytes c).flatMap (escapeByte mode) := rfl

theorem escape_mk_cons_slash (rest : List Char) :
    escape (String.mk ('/' :: rest)) encoding.encodePath
      = "/" ++ escape (String.mk rest) encoding.encodePath := by
  apply String.ext
  rw [String.data_append, escape_data, escape_data]
  rfl

theorem URL_String_rooted (rest : List Char) :
    ({ apiAddr with Path := String.mk ('/' :: rest) } : URL).String
      = "https://api.moonpay.io" ++ escape (String.mk ('/' :: rest)) encoding.encodePath := by
  have hstar : ¬ (String.mk ('/' :: rest) = "*") := by
    intro h
    have := congrArg String.data h
    simp at this
  unfold URL.String URL.EscapedPath
  simp only [apiAddr]
  rw [if_neg hstar, escape_mk_cons_slash]
  generalize escape (String.mk rest) encoding.encodePath = e
  have hs : ("https" : String) ≠ "" := by decide
  have hh : ("api.moonpay.io" : String) ≠ "" := by decide
  have hhost : escape "api.moonpay.io" encoding.encodeHost = "api.moonpay.io" := by decide
  have hhead : ("/" ++ e : String).data.head? = some '/' := by
    rw [String.data_append]; rfl
  have hpre : ("https" ++ ":" ++ "//" ++ "api.moonpay.io" : String) = "https://api.moonpay.io" := by
    decide
  have hlen : ¬ (("https://api.moonpay.io" : String).length = 0) := by decide
  simp only [ne_eq, hs, hh, hhost, hhead, not_true_eq_false, not_false_eq_true, and_false,
    false_and, true_or, if_true, if_false, hpre, hlen]

theorem plainChar_toNat (c : Char) (h : plainChar c = true) :
    (48 ≤ c.toNat ∧ c.toNat ≤ 57) ∨ (65 ≤ c.toNat ∧ c.toNat ≤ 90)
      ∨ (97 ≤ c.toNat ∧ c.toNat ≤ 122) ∨ c.toNat = 45 := by
  simp only [plainChar, decide_eq_true_eq] at h
  rcases h with h | h | h | h
  · exact Or.inl (by simpa using h)
  · exact Or.inr (Or.inl (by simpa using h))
  · exact Or.inr (Or.inr (Or.inl (by simpa using h)))
  · subst h; exact Or.inr (Or.inr (Or.inr rfl))

theorem plainChar_ne_slash (c : Char) (h : plainChar c = true) : c ≠ '/' := by
  intro hc; subst hc; revert h; decide

theorem plainChar_ne_dot (c : Char) (h : plainChar c = true) : c ≠ '.' := by
  intro hc; subst hc; revert h; decide

theorem escape_plainChar (c : Char) (h : plainChar c = true) :
    (utf8Bytes c).flatMap (escapeByte encoding.encodePath) = [c] := by
  have hn := plainChar_toNat c h
  have hlt : c.toNat < 0x80 := by omega
  have hs : shouldEscape c.toNat encoding.encodePath = false := by
    unfold shouldEscape
    simp
    intro h1 
    omega
  have hu : utf8Bytes c = [c.toNat] := by
    unfold utf8Bytes
    simp [hlt]
  rw [hu]
  simp [escapeByte, hs, Char.ofNat_toNat]

theorem escape_plain (w : List Char) (h : ∀ c ∈ w, plainChar c = true) :
    (w.flatMap fun c => (utf8Bytes c).flatMap (escapeByte encoding.encodePath)) = w := by
  induction w with
  | nil => rfl
  | cons c w ih =>
    rw [List.flatMap_cons, escape_plainChar c (h c (List.mem_cons_self _ _)),
      ih fun x hx => h x (List.mem_cons_of_mem _ hx)]
    rfl

theorem cleanLoop_copy_run (r : Bool) (w t out : List Char) (d : Nat)
    (h : ∀ c ∈ w, c ≠ '/') :
    cleanLoop r true (w ++ t) out d = cleanLoop r true t (out ++ w) d := by
  induction w generalizing out with
  | nil => simp
  | cons c w ih =>
    rw [List.cons_append, cleanLoop, if_neg (h c (List.mem_cons_self _ _)),
      ih _ fun x hx => h x (List.mem_cons_of_mem _ hx)]
    simp

theorem hexEncode_plain (src : List (Fin 256)) : ∀ c ∈ hexEncode src, plainChar c = true := by
  have hd : ∀ n : Fin 16, plainChar ("0123456789abcdef".data.getD n.val '0') = true := by decide
  intro c hc
  simp only [hexEncode, List.mem_flatMap, List.mem_cons, List.mem_singleton] at hc
  obtain ⟨v, _, hv⟩ := hc
  simp only [List.not_mem_nil, or_false] at hv
  rcases hv with rfl | rfl
  · exact hd ⟨v.val / 16, by omega⟩
  · exact hd ⟨v.val % 16, by omega⟩

theorem UUID_String_plain (id : UUID) : ∀ c ∈ id.String.data, plainChar c = true := by
  intro c hc
  simp only [UUID.String, List.mem_append, List.mem_singleton] at hc
  rcases hc with (((((((hc | hc) | hc) | hc) | hc) | hc) | hc) | hc) | hc
  all_goals first
    | exact hexEncode_plain _ c hc
    | (subst hc; decide)

theorem hexEncode_length (src : List (Fin 256)) : (hexEncode src).length = 2 * src.length := by
  induction src with
  | nil => rfl
  | cons v src ih => simp [hexEncode, List.flatMap_cons] at ih ⊢; omega

theorem UUID_String_ne_nil (id : UUID) : id.String.data ≠ [] := by
  intro h
  have := congrArg List.length h
  simp [UUID.String, hexEncode_length] at this

theorem cleanLoop_elem (c : Char) (t out : List Char) (d : Nat) (hc : c ≠ '/')
    (hdot : c ≠ '.') (hlen : out.length ≠ 1) :
    cleanLoop true false (c :: t) out d = cleanLoop true true t (out ++ ['/', c]) d := by
  rw [cleanLoop_real c t out d hc (fun h => hdot h.1) (fun h => hdot h.1), if_pos hlen,
    List.append_assoc]
  rfl

theorem url_eq (other : String → List Arg → String) (key p : String) (a : List Arg) :
    ∃ rest, cleanLoop true false (fmtSprintf other p a).data ['/', 'v', '3'] 1 = '/' :: rest
      ∧ (New key).url other p a
          = "https://api.moonpay.io" ++ escape (String.mk ('/' :: rest)) encoding.encodePath := by
  have hr := cleanLoop_rooted _ (fmtSprintf other p a).data (Nat.le_refl _) false
    ['/', 'v', '3'] rfl
  cases hout : cleanLoop true false (fmtSprintf other p a).data ['/', 'v', '3'] 1 with
  | nil => rw [hout] at hr; simp at hr
  | cons x rest =>
    rw [hout] at hr
    have hx : x = '/' := by simpa using hr
    subst hx
    refine ⟨rest, rfl, ?_⟩
    have hp : pathJoin ["/v3/", fmtSprintf other p a] = String.mk ('/' :: rest) := by
      rw [pathJoin_v3, hout]
      simp
    show ({ apiAddr with Path := pathJoin ["/v3/", fmtSprintf other p a] } : URL).String = _
    rw [hp, URL_String_rooted]

theorem escape_mk_append (a b : List Char) (mode : encoding) :
    escape (String.mk (a ++ b)) mode = escape (String.mk a) mode ++ escape (String.mk b) mode := by
  apply String.ext
  rw [String.data_append, escape_data, escape_data, escape_data]
  simp

theorem clean_x_y (i j k : Nat) :
    cleanLoop true false
        (replicate i '/' ++ 'x' :: (replicate (j + 1) '/' ++ 'y' :: replicate k '/'))
        ['/', 'v', '3'] 1
      = ['/', 'v', '3', '/', 'x', '/', 'y'] := by
  rw [cleanLoop_skip_slashes, cleanLoop_elem _ _ _ _ (by decide) (by decide) (by decide),
    replicate_succ, List.cons_append, cleanLoop_slash, cleanLoop_skip_slashes,
    cleanLoop_elem _ _ _ _ (by decide) (by decide) (by simp), cleanLoop_only_slashes]
  rfl

theorem fmtSprintf_cards (other : String → List Arg → String) (x : Arg) :
    (fmtSprintf other "/cards/%s" [x]).data = ['/', 'c', 'a', 'r', 'd', 's', '/'] ++ x.render.data := by
  have h : (fmtSprintf other "/cards/%s" [x]).data
      = ['/', 'c', 'a', 'r', 'd', 's', '/'] ++ (x.render.data ++ []) := rfl
  rw [h, List.append_nil]

theorem fmtSprintf_transactions (other : String → List Arg → String) (x : Arg) :
    (fmtSprintf other "/transactions/%s" [x]).data
      = ['/', 't', 'r', 'a', 'n', 's', 'a', 'c', 't', 'i', 'o', 'n', 's', '/'] ++ x.render.data := by
  have h : (fmtSprintf other "/transactions/%s" [x]).data
      = ['/', 't', 'r', 'a', 'n', 's', 'a', 'c', 't', 'i', 'o', 'n', 's', '/']
          ++ (x.render.data ++ []) := rfl
  rw [h, List.append_nil]

theorem fmtSprintf_price (other : String → List Arg → String) (x : Arg) :
    (fmtSprintf other "/currencies/%s/price" [x]).data
      = ['/', 'c', 'u', 'r', 'r', 'e', 'n', 'c', 'i', 'e', 's', '/']
          ++ (x.render.data ++ ['/', 'p', 'r', 'i', 'c', 'e']) := rfl

theorem clean_plain_segments (segs : List (List Char))
    (h : ∀ s ∈ segs, s ≠ [] ∧ ∀ c ∈ s, plainChar c = true) :
    ∀ (b : Bool) (out : List Char), out.length ≠ 1 →
      cleanLoop true b (segs.map fun s => '/' :: s).flatten out 1
        = out ++ (segs.map fun s => '/' :: s).flatten := by
  induction segs with
  | nil => intro b out _; simp [cleanLoop]
  | cons s segs ih =>
    intro b out hout
    obtain ⟨hne, hp⟩ := h s (List.mem_cons_self _ _)
    cases s with
    | nil => exact absurd rfl hne
    | cons c s =>
      have hc := hp c (List.mem_cons_self _ _)
      simp only [List.map_cons, List.flatten_cons, List.cons_append]
      rw [cleanLoop_slash, cleanLoop_elem _ _ _ _ (plainChar_ne_slash c hc)
        (plainChar_ne_dot c hc) hout,
        cleanLoop_copy_run _ _ _ _ _ fun x hx =>
          plainChar_ne_slash x (hp x (List.mem_cons_of_mem _ hx)),
        ih (fun s hs => h s (List.mem_cons_of_mem _ hs)) true _ (by simp; omega)]
      simp

theorem escape_plain_segments (segs : List (List Char))
    (h : ∀ s ∈ segs, s ≠ [] ∧ ∀ c ∈ s, plainChar c = true) :
    escape (String.mk (segs.map fun s => '/' :: s).flatten) encoding.encodePath
      = String.mk (segs.map fun s => '/' :: s).flatten := by
  induction segs with
  | nil => rfl
  | cons s segs ih =>
    simp only [List.map_cons, List.flatten_cons, List.cons_append]
    rw [escape_mk_cons_slash, escape_mk_append, ih fun s hs => h s (List.mem_cons_of_mem _ hs)]
    apply String.ext
    rw [String.data_append, String.data_append, escape_data,
      escape_plain s (h s (List.mem_cons_self _ _)).2]
    rfl

theorem url_plain_segments (other : String → List Arg → String) (key p : String)
    (a : List Arg) (segs : List (List Char))
    (h : ∀ s ∈ segs, s ≠ [] ∧ ∀ c ∈ s, plainChar c = true)
    (hfmt : (fmtSprintf other p a).data = (segs.map fun s => '/' :: s).flatten) :
    (New key).url other p a
      = "https://api.moonpay.io/v3" ++ String.mk (segs.map fun s => '/' :: s).flatten := by
  obtain ⟨rest, hrest, hurl⟩ := url_eq other key p a
  rw [hfmt, clean_plain_segments segs h false _ (by decide)] at hrest
  rw [hurl, ← hrest, escape_mk_append, escape_plain_segments segs h]
  apply String.ext
  simp only [String.data_append]
  rfl

theorem splitOn_slash_append (a b : List Char) :
    (a ++ '/' :: b).splitOn '/' = a.splitOn '/' ++ b.splitOn '/' := by
  induction a with
  | nil => simp [splitOn_slash_cons]
  | cons c a ih =>
    rw [List.cons_append, splitOn_slash_cons, splitOn_slash_cons, ih]
    by_cases hc : c = '/'
    · simp [hc]
    · rw [if_neg hc, if_neg hc]
      cases h : a.splitOn '/' with
      | nil => exact absurd h (splitOn_slash_ne_nil a)
      | cons e es => simp

theorem url_under_v3 (other : String → List Arg → String) (key p : String) (a : List Arg)
    (h : ['.', '.'] ∉ (fmtSprintf other p a).data.splitOn '/') :
    ∃ rest : String, (New key).url other p a = "https://api.moonpay.io/v3" ++ rest
      ∧ (rest = "" ∨ ∃ t : String, rest = "/" ++ t) := by
  obtain ⟨rest, hrest, hurl⟩ := url_eq other key p a
  have hinv := cleanLoop_underV3 (fmtSprintf other p a).data false ['/', 'v', '3']
    (by simpa using h) (by exact ⟨[], rfl, Or.inl rfl⟩)
  obtain ⟨r, hr, hr2⟩ := hinv
  rw [hrest] at hr
  rw [hurl, hr, escape_mk_append]
  refine ⟨escape (String.mk r) encoding.encodePath, ?_, ?_⟩
  · apply String.ext
    simp only [String.data_append]
    rfl
  · rcases hr2 with hr2 | hr2
    · left; subst hr2; rfl
    · right
      cases r with
      | nil => simp at hr2
      | cons y r =>
        have hy : y = '/' := by simpa using hr2
        subst hy
        exact ⟨_, escape_mk_cons_slash r⟩

theorem url_on_host (other : String → List Arg → String) (key p : String) (a : List Arg) :
    ∃ rest : String, (New key).url other p a = "https://api.moonpay.io/" ++ rest := by
  obtain ⟨rest, _, hurl⟩ := url_eq other key p a
  refine ⟨escape (String.mk rest) encoding.encodePath, ?_⟩
  rw [hurl, escape_mk_cons_slash]
  apply String.ext
  simp only [String.data_append]
  rfl

theorem splitOn_price (l : List Char) (h : ['.', '.'] ∉ l.splitOn '/') :
    ['.', '.'] ∉ (['/', 'c', 'u', 'r', 'r', 'e', 'n', 'c', 'i', 'e', 's', '/']
        ++ (l ++ ['/', 'p', 'r', 'i', 'c', 'e'])).splitOn '/' := by
  have h1 : (['/', 'c', 'u', 'r', 'r', 'e', 'n', 'c', 'i', 'e', 's', '/']
        ++ (l ++ ['/', 'p', 'r', 'i', 'c', 'e']))
      = ['/', 'c', 'u', 'r', 'r', 'e', 'n', 'c', 'i', 'e', 's'] ++ '/' :: (l ++ '/' :: ['p', 'r', 'i', 'c', 'e']) := by
    simp
  rw [h1, splitOn_slash_append, splitOn_slash_append]
  have h2 : ['/', 'c', 'u', 'r', 'r', 'e', 'n', 'c', 'i', 'e', 's'].splitOn '/' = [[], ['c', 'u', 'r', 'r', 'e', 'n', 'c', 'i', 'e', 's']] := by decide
  have h3 : ['p', 'r', 'i', 'c', 'e'].splitOn '/' = [['p', 'r', 'i', 'c', 'e']] := by decide
  rw [h2, h3]
  simp [h]

theorem url_id (other : String → List Arg → String) (key : String) (id : UUID) :
    (New key).url other "/cards/%s" [Arg.uuid id] = "https://api.moonpay.io/v3/cards/" ++ id.String
      ∧ (New key).url other "/transactions/%s" [Arg.uuid id]
          = "https://api.moonpay.io/v3/transactions/" ++ id.String := by
  have hid : id.String.data ≠ [] ∧ ∀ c ∈ id.String.data, plainChar c = true :=
    ⟨UUID_String_ne_nil id, UUID_String_plain id⟩
  have hc : ∀ s ∈ [['c', 'a', 'r', 'd', 's'], id.String.data],
      s ≠ [] ∧ ∀ c ∈ s, plainChar c = true := by
    intro s hs
    simp only [List.mem_cons, List.mem_singleton, List.not_mem_nil, or_false] at hs
    rcases hs with h | h
    · rw [h]; exact ⟨by simp, by decide⟩
    · rw [h]; exact hid
  have ht : ∀ s ∈ [['t', 'r', 'a', 'n', 's', 'a', 'c', 't', 'i', 'o', 'n', 's'], id.String.data],
      s ≠ [] ∧ ∀ c ∈ s, plainChar c = true := by
    intro s hs
    simp only [List.mem_cons, List.mem_singleton, List.not_mem_nil, or_false] at hs
    rcases hs with h | h
    · rw [h]; exact ⟨by simp, by decide⟩
    · rw [h]; exact hid
  have hfc : (fmtSprintf other "/cards/%s" [Arg.uuid id]).data
      = ([['c', 'a', 'r', 'd', 's'], id.String.data].map fun s => '/' :: s).flatten := by
    rw [fmtSprintf_cards other (Arg.uuid id)]
    simp [Arg.render]
  have hft : (fmtSprintf other "/transactions/%s" [Arg.uuid id]).data
      = ([['t', 'r', 'a', 'n', 's', 'a', 'c', 't', 'i', 'o', 'n', 's'], id.String.data].map
          fun s => '/' :: s).flatten := by
    rw [fmtSprintf_transactions other (Arg.uuid id)]
    simp [Arg.render]
  constructor
  · rw [url_plain_segments other key "/cards/%s" [Arg.uuid id] _ hc hfc]
    apply String.ext
    simp only [String.data_append, List.map_cons, List.map_nil, List.flatten_cons,
      List.flatten_nil, List.append_nil]
    rfl
  · rw [url_plain_segments other key "/transactions/%s" [Arg.uuid id] _ ht hft]
    apply String.ext
    simp only [String.data_append, List.map_cons, List.map_nil, List.flatten_cons,
      List.flatten_nil, List.append_nil]
    rfl

theorem escape_pathChar (c : Char) (h : pathChar c = true) :
    (utf8Bytes c).flatMap (escapeByte encoding.encodePath) = [c] := by
  simp only [pathChar, decide_eq_true_eq] at h
  obtain ⟨_, hlt, hs⟩ := h
  have hu : utf8Bytes c = [c.toNat] := by
    unfold utf8Bytes
    simp [hlt]
  rw [hu]
  simp [escapeByte, hs, Char.ofNat_toNat]

theorem escape_pathChars (w : List Char) (h : ∀ c ∈ w, pathChar c = true) :
    (w.flatMap fun c => (utf8Bytes c).flatMap (escapeByte encoding.encodePath)) = w := by
  induction w with
  | nil => rfl
  | cons c w ih =>
    rw [List.flatMap_cons, escape_pathChar c (h c (List.mem_cons_self _ _)),
      ih fun x hx => h x (List.mem_cons_of_mem _ hx)]
    rfl

theorem pathChar_ne_slash (c : Char) (h : pathChar c = true) : c ≠ '/' := by
  simp only [pathChar, decide_eq_true_eq] at h
  exact h.1

theorem slash_cons_eq_flatten (l : List Char) :
    '/' :: l = ((l.splitOn '/').map fun s => '/' :: s).flatten := by
  induction l with
  | nil => rfl
  | cons c t ih =>
    rw [splitOn_slash_cons]
    by_cases hc : c = '/'
    · rw [if_pos hc, List.map_cons, List.flatten_cons, ← ih, hc]
      rfl
    · rw [if_neg hc]
      cases h : t.splitOn '/' with
      | nil => exact absurd h (splitOn_slash_ne_nil t)
      | cons e es =>
        rw [h] at ih
        simp only [List.map_cons, List.flatten_cons, List.cons_append, List.cons.injEq,
          true_and] at ih
        simp [ih]

/-- A path element that is neither `.` nor `..` is copied to the buffer. -/
theorem cleanLoop_clean_elem (s rest out : List Char) (d : Nat)
    (hne : s ≠ []) (hdot : s ≠ ['.']) (hdd : s ≠ ['.', '.'])
    (hp : ∀ c ∈ s, c ≠ '/') (hrest : rest = [] ∨ rest.head? = some '/')
    (hlen : out.length ≠ 1) :
    cleanLoop true false (s ++ rest) out d = cleanLoop true true rest (out ++ '/' :: s) d := by
  cases s with
  | nil => exact absurd rfl hne
  | cons c s1 =>
    have hc : c ≠ '/' := hp c (List.mem_cons_self _ _)
    have hs1 : ∀ x ∈ s1, x ≠ '/' := fun x hx => hp x (List.mem_cons_of_mem _ hx)
    have h1 : ¬ (c = '.' ∧ (s1 ++ rest = [] ∨ (s1 ++ rest).head? = some '/')) := by
      rintro ⟨rfl, h⟩
      cases s1 with
      | nil => exact hdot rfl
      | cons x s2 =>
        have hx : x ≠ '/' := hs1 x (List.mem_cons_self _ _)
        simp [hx] at h
    have h2 : ¬ (c = '.' ∧ (s1 ++ rest).head? = some '.'
        ∧ ((s1 ++ rest).tail = [] ∨ (s1 ++ rest).tail.head? = some '/')) := by
      rintro ⟨rfl, hh, ht⟩
      cases s1 with
      | nil =>
        rcases hrest with hr | hr
        · subst hr; simp at hh
        · simp only [List.nil_append] at hh
          rw [hr] at hh
          simp at hh
      | cons x s2 =>
        have hx : x = '.' := by simpa using hh
        subst hx
        cases s2 with
        | nil => exact hdd rfl
        | cons y s3 =>
          have hy : y ≠ '/' :=
            hs1 y (List.mem_cons_of_mem _ (List.mem_cons_self _ _))
          simp [hy] at ht
    rw [List.cons_append, cleanLoop_real c (s1 ++ rest) out d hc h1 h2, if_pos hlen,
      cleanLoop_copy_run _ _ _ _ _ hs1]
    simp

theorem clean_clean_segments (segs : List (List Char))
    (h : ∀ s ∈ segs, s ≠ [] ∧ s ≠ ['.'] ∧ s ≠ ['.', '.'] ∧ ∀ c ∈ s, pathChar c = true) :
    ∀ (b : Bool) (out : List Char), out.length ≠ 1 →
      cleanLoop true b (segs.map fun s => '/' :: s).flatten out 1
        = out ++ (segs.map fun s => '/' :: s).flatten := by
  induction segs with
  | nil => intro b out _; simp [cleanLoop]
  | cons s segs ih =>
    intro b out hout
    obtain ⟨hne, hdot, hdd, hp⟩ := h s (List.mem_cons_self _ _)
    have hrest : (segs.map fun s => '/' :: s).flatten = []
        ∨ ((segs.map fun s => '/' :: s).flatten).head? = some '/' := by
      cases segs with
      | nil => exact Or.inl rfl
      | cons s2 segs2 => exact Or.inr rfl
    simp only [List.map_cons, List.flatten_cons, List.cons_append]
    rw [cleanLoop_slash,
      cleanLoop_clean_elem s _ out 1 hne hdot hdd (fun c hc => pathChar_ne_slash c (hp c hc))
        hrest hout,
      ih (fun s hs => h s (List.mem_cons_of_mem _ hs)) true _
        (by have := List.length_pos.mpr hne; simp; omega)]
    simp

theorem escape_clean_segments (segs : List (List Char))
    (h : ∀ s ∈ segs, ∀ c ∈ s, pathChar c = true) :
    escape (String.mk (segs.map fun s => '/' :: s).flatten) encoding.encodePath
      = String.mk (segs.map fun s => '/' :: s).flatten := by
  induction segs with
  | nil => rfl
  | cons s segs ih =>
    simp only [List.map_cons, List.flatten_cons, List.cons_append]
    rw [escape_mk_cons_slash, escape_mk_append, ih fun s hs => h s (List.mem_cons_of_mem _ hs)]
    apply String.ext
    rw [String.data_append, String.data_append, escape_data,
      escape_pathChars s (h s (List.mem_cons_self _ _))]
    rfl

theorem url_clean_segments (other : String → List Arg → String) (key p : String)
    (a : List Arg) (segs : List (List Char))
    (h : ∀ s ∈ segs, s ≠ [] ∧ s ≠ ['.'] ∧ s ≠ ['.', '.'] ∧ ∀ c ∈ s, pathChar c = true)
    (hfmt : (fmtSprintf other p a).data = (segs.map fun s => '/' :: s).flatten) :
    (New key).url other p a
      = "https://api.moonpay.io/v3" ++ String.mk (segs.map fun s => '/' :: s).flatten := by
  obtain ⟨rest, hrest, hurl⟩ := url_eq other key p a
  rw [hfmt, clean_clean_segments segs h false _ (by decide)] at hrest
  rw [hurl, ← hrest, escape_mk_append,
    escape_clean_segments segs fun s hs => (h s hs).2.2.2]
  apply String.ext
  simp only [String.data_append]
  rfl

/-! ## The claims -/

theorem stringsJoin_pair (a b sep : String) : stringsJoin [a, b] sep = a ++ sep ++ b := by
  simp [stringsJoin]

/-- C1: when `Errors` is non-empty, `Error()` is the `"; "`-join of the string forms of
all constraint values of all entries, the entries in list order; in particular two
entries with one constraint message each, `m1` and `m2`, give `m1 ++ "; " ++ m2`. -/
theorem Error_joins_constraints (e : RespError) (h : e.Errors ≠ []) :
    e.Error
        = stringsJoin
            (e.Errors.map fun er => er.Constraints.map fun kv => fmtSprint kv.2).flatten "; "
      ∧ ∀ (a b : FieldError) (k1 k2 m1 m2 : String), e.Errors = [a, b] →
          a.Constraints = [(k1, Any.str m1)] → b.Constraints = [(k2, Any.str m2)] →
          e.Error = m1 ++ "; " ++ m2 := by
  have hlen : e.Errors.length > 0 := List.length_pos.mpr h
  have hmain : e.Error
      = stringsJoin
          (e.Errors.map fun er => er.Constraints.map fun kv => fmtSprint kv.2).flatten "; " := by
    unfold RespError.Error
    rw [if_pos hlen, appendErrors_eq]
    rfl
  refine ⟨hmain, ?_⟩
  intro a b k1 k2 m1 m2 hab ha hb
  rw [hmain, hab]
  simp [ha, hb, fmtSprint, stringsJoin_pair]

/-- C1, at a 422 body with two field-constraint violations. -/
theorem Error_joins_constraints_witness :
    (RespError.mk "422 Unprocessable Entity"
        [⟨[], "x", "email", [("isEmail", Any.str "email must be an email")]⟩,
         ⟨[], "", "code", [("isNotEmpty", Any.str "code should not be empty")]⟩]
        "Bad request" "BadRequestError").Error
      = "email must be an email; code should not be empty" :=
  (Error_joins_constraints
      (RespError.mk "422 Unprocessable Entity"
        [⟨[], "x", "email", [("isEmail", Any.str "email must be an email")]⟩,
         ⟨[], "", "code", [("isNotEmpty", Any.str "code should not be empty")]⟩]
        "Bad request" "BadRequestError") (by simp)).2 _ _ _ _ _ _ rfl rfl rfl

/-- C3: when `Errors` is empty, `Error()` is `Message` if that is non-empty, and
`Status` otherwise. -/
theorem Error_falls_back (e : RespError) (h : e.Errors = []) :
    (e.Message ≠ "" → e.Error = e.Message) ∧ (e.Message = "" → e.Error = e.Status) := by
  unfold RespError.Error
  constructor
  · intro hm
    simp [h, hm]
  · intro hm
    simp [h, hm]

/-- C3, at a response with a message and at one with a status line only. -/
theorem Error_falls_back_witness :
    (RespError.mk "404 Not Found" [] "Customer not found" "").Error = "Customer not found"
      ∧ (RespError.mk "404 Not Found" [] "" "").Error = "404 Not Found" :=
  ⟨(Error_falls_back (RespError.mk "404 Not Found" [] "Customer not found" "") rfl).1
      (by decide),
    (Error_falls_back (RespError.mk "404 Not Found" [] "" "") rfl).2 rfl⟩

/-- C4: `handleError(resp, err)` returns `err` itself when `err` is non-nil, whatever
the response (a nil pointer included); when `err` is nil it returns a `*RespError`
exactly when the status code is at least 400 and nil exactly when it is below,
whatever the JSON decoder does with the body. -/
theorem handleError_spec (go : GoLib) (m : Moonpay) :
    (∀ (resp : Option Resp) (err : Error), m.handleError go resp (some err) = some (some err))
      ∧ ∀ r : Resp,
          ((∃ re : RespError, m.handleError go (some r) none = some (some (Error.api re)))
              ↔ r.StatusCode ≥ 400)
            ∧ (m.handleError go (some r) none = some none ↔ r.StatusCode < 400) := by
  refine ⟨fun resp err => rfl, fun r => ?_⟩
  by_cases hs : r.StatusCode ≥ 400
  · have hlt : ¬ r.StatusCode < 400 := by omega
    simp [Moonpay.handleError, hs, hlt]
  · have hlt : r.StatusCode < 400 := by omega
    simp [Moonpay.handleError, hs, hlt]

/-- C5: every request of an operation of the customer client carries the header
`Authorization` with the value `"Bearer " ++ token`, the token being the one the
client holds, which for `Customer(t)` is `t`. -/
theorem customer_requests_carry_bearer (go : GoLib) (mc : MoonpayCustomer) :
    (∀ (m : Moonpay) (t : String), (m.Customer t).token = t)
      ∧ (mc.RefreshTokenRequest go).Header = [("Authorization", "Bearer " ++ mc.token)]
      ∧ (mc.Info go).Header = [("Authorization", "Bearer " ++ mc.token)]
      ∧ (mc.Limits go).Header = [("Authorization", "Bearer " ++ mc.token)]
      ∧ (∀ u, (mc.Update go u).Header = [("Authorization", "Bearer " ++ mc.token)])
      ∧ (∀ id, (mc.CreateCard go id).Header = [("Authorization", "Bearer " ++ mc.token)])
      ∧ (mc.Cards go).Header = [("Authorization", "Bearer " ++ mc.token)]
      ∧ (∀ id, (mc.DeleteCard go id).Header = [("Authorization", "Bearer " ++ mc.token)])
      ∧ (∀ d, (mc.CreateTransaction go d).Header = [("Authorization", "Bearer " ++ mc.token)])
      ∧ (∀ id, (mc.Transaction go id).Header = [("Authorization", "Bearer " ++ mc.token)])
      ∧ (mc.Transactions go).Header = [("Authorization", "Bearer " ++ mc.token)] :=
  ⟨fun _ _ => rfl, rfl, rfl, rfl, fun _ => rfl, fun _ => rfl, rfl, fun _ => rfl, fun _ => rfl,
    fun _ => rfl, rfl⟩

/-- C6: each key-authenticated operation of `New(k)` sends the query parameter
`apiKey` with the value `k`. -/
theorem key_operations_send_apiKey (go : GoLib) (k : String) :
    (∀ c, ((New k).CurrencyPrice go c).QueryParam.lookup "apiKey" = some k)
      ∧ (∀ c f, ((New k).CurrenciesPrice go c f).QueryParam.lookup "apiKey" = some k)
      ∧ ((New k).IPaddress go).QueryParam.lookup "apiKey" = some k
      ∧ (∀ email, ((New k).SecurityCode go email).QueryParam.lookup "apiKey" = some k)
      ∧ (∀ email code extid,
          ((New k).ConfirmRegistration go email code extid).QueryParam.lookup "apiKey" = some k)
      ∧ (∀ d, ((New k).CreateToken go d).QueryParam.lookup "apiKey" = some k)
      ∧ (∀ t u, (((New k).Customer t).Update go u).QueryParam.lookup "apiKey" = some k) :=
  ⟨fun _ => rfl, fun _ _ => rfl, rfl, fun _ => rfl, fun _ _ _ => rfl, fun _ => rfl,
    fun _ _ => rfl⟩

/-- C2, on the code: after a response `200 OK` whose body decodes without error into
a `CustomerAuth` with the token `new`, `RefreshToken` returns that value and no
error, and the client still holds the token `old`. -/
theorem RefreshToken_success_keeps_old_token :
    ((((New "pk").Customer "old").RefreshToken exampleLib (some ⟨200, "200 OK", "new"⟩)
        none).map fun x => (x.1.token, x.2.1.Token, x.2.2))
      = some ("old", "new", none) := by
  rfl

/-- C8: the read operations build a GET request; `SecurityCode`,
`ConfirmRegistration`, `CreateToken` and `CreateCard` build a POST, `Update` a PATCH
and `DeleteCard` a DELETE request; `CreateTransaction` builds a GET request to
`/v3/transactions` whose body is the JSON encoding of its argument. -/
theorem operation_methods (go : GoLib) (k t : String) :
    ((New k).Currencies go).Method = Method.Get
      ∧ (∀ c, ((New k).CurrencyPrice go c).Method = Method.Get)
      ∧ (∀ c f, ((New k).CurrenciesPrice go c f).Method = Method.Get)
      ∧ ((New k).Countries go).Method = Method.Get
      ∧ ((New k).IPaddress go).Method = Method.Get
      ∧ (((New k).Customer t).RefreshTokenRequest go).Method = Method.Get
      ∧ (((New k).Customer t).Info go).Method = Method.Get
      ∧ (((New k).Customer t).Limits go).Method = Method.Get
      ∧ (((New k).Customer t).Cards go).Method = Method.Get
      ∧ (∀ id, (((New k).Customer t).Transaction go id).Method = Method.Get)
      ∧ (((New k).Customer t).Transactions go).Method = Method.Get
      ∧ (∀ email, ((New k).SecurityCode go email).Method = Method.Post)
      ∧ (∀ email code extid,
          ((New k).ConfirmRegistration go email code extid).Method = Method.Post)
      ∧ (∀ d, ((New k).CreateToken go d).Method = Method.Post)
      ∧ (∀ id, (((New k).Customer t).CreateCard go id).Method = Method.Post)
      ∧ (∀ u, (((New k).Customer t).Update go u).Method = Method.Patch)
      ∧ (∀ id, (((New k).Customer t).DeleteCard go id).Method = Method.Delete)
      ∧ ∀ d : TransactionRequest,
          (((New k).Customer t).CreateTransaction go d).Method = Method.Get
            ∧ (((New k).Customer t).CreateTransaction go d).URL
                = "https://api.moonpay.io/v3/transactions"
            ∧ (((New k).Customer t).CreateTransaction go d).Body
                = some (BodyJSON.transactionRequest d) :=
  ⟨rfl, fun _ => rfl, fun _ _ => rfl, rfl, rfl, rfl, rfl, rfl, rfl, fun _ => rfl, rfl,
    fun _ => rfl, fun _ _ _ => rfl, fun _ => rfl, fun _ => rfl, fun _ => rfl, fun _ => rfl,
    fun _ => ⟨rfl, rfl, rfl⟩⟩

/-- C7: `New(key).url(p, a)` is `https://api.moonpay.io/v3/x/y` whenever the formatted
sub-path is `x/y` up to leading, trailing and repeated slashes, as it is for the
templates `/x/%s`, `x/%s`, `/x/%s/` with the arguments `y`, `/y`, `y/`. -/
theorem url_x_y (other : String → List Arg → String) (key : String) :
    (∀ (p : String) (a : List Arg) (i j k : Nat),
        (fmtSprintf other p a).data
            = replicate i '/' ++ 'x' :: (replicate (j + 1) '/' ++ 'y' :: replicate k '/') →
        (New key).url other p a = "https://api.moonpay.io/v3/x/y")
      ∧ ∀ p ∈ ["/x/%s", "x/%s", "/x/%s/"], ∀ s ∈ ["y", "/y", "y/"],
          (New key).url other p [Arg.str s] = "https://api.moonpay.io/v3/x/y" := by
  constructor
  · intro p a i j k h
    obtain ⟨rest, hrest, hurl⟩ := url_eq other key p a
    rw [h, clean_x_y] at hrest
    rw [hurl, ← hrest]
    decide
  · intro p hp s hs
    simp only [List.mem_cons, List.mem_singleton, List.not_mem_nil, or_false] at hp hs
    rcases hp with rfl | rfl | rfl <;> rcases hs with rfl | rfl | rfl <;> rfl

/-- C7, at the sub-path `//x///y/` made by the template `//x//%s` and the argument `/y/`. -/
theorem url_x_y_witness :
    (New "pk").url exampleLib.sprintfOther "//x//%s" [Arg.str "/y/"]
        = "https://api.moonpay.io/v3/x/y"
      ∧ (New "pk").url exampleLib.sprintfOther "/x/%s" [Arg.str "y"]
        = "https://api.moonpay.io/v3/x/y" :=
  ⟨(url_x_y exampleLib.sprintfOther "pk").1 "//x//%s" [Arg.str "/y/"] 2 2 1 (by decide),
    (url_x_y exampleLib.sprintfOther "pk").2 "/x/%s" (by decide) "y" (by decide)⟩

/-- C9 fails as stated: the codes `../../X` and `../../x` have the same lower-case
form, yet the URL of `CurrencyPrice` is `https://api.moonpay.io/x/price` and not
`https://api.moonpay.io/v3/currencies/../../x/price`; for the empty code it is
`https://api.moonpay.io/v3/currencies/price`. -/
theorem CurrencyPrice_url_not_literal :
    stringsToLower exampleLib.unicodeToLower "../../X"
        = stringsToLower exampleLib.unicodeToLower "../../x"
      ∧ ((New "pk").CurrencyPrice exampleLib "../../X").URL = "https://api.moonpay.io/x/price"
      ∧ ((New "pk").CurrencyPrice exampleLib "../../X").URL
          ≠ "https://api.moonpay.io/v3/currencies/"
              ++ stringsToLower exampleLib.unicodeToLower "../../X" ++ "/price"
      ∧ ((New "pk").CurrencyPrice exampleLib "").URL
          = "https://api.moonpay.io/v3/currencies/price"
      ∧ ((New "pk").CurrencyPrice exampleLib "").URL
          ≠ "https://api.moonpay.io/v3/currencies/"
              ++ stringsToLower exampleLib.unicodeToLower "" ++ "/price" := by
  decide

/-- C9, amended: two currency codes with the same lower-case form make `CurrencyPrice`
build the same request; its query is `apiKey=<key>` and its URL is
`url("/currencies/%s/price", lower(c))`, which is
`https://api.moonpay.io/v3/currencies/<lower(c)>/price` whenever every element of
`lower(c)` between slashes is non-empty, is neither `.` nor `..`, and is made of ASCII
characters that the escaping of a path leaves as they are. -/
theorem CurrencyPrice_same_lower_same_request (go : GoLib) (key c1 c2 : String)
    (h : stringsToLower go.unicodeToLower c1 = stringsToLower go.unicodeToLower c2) :
    (New key).CurrencyPrice go c1 = (New key).CurrencyPrice go c2
      ∧ ((New key).CurrencyPrice go c1).QueryParam = [("apiKey", key)]
      ∧ ((New key).CurrencyPrice go c1).URL
          = (New key).url go.sprintfOther "/currencies/%s/price"
              [Arg.str (stringsToLower go.unicodeToLower c1)]
      ∧ ((∀ e ∈ (stringsToLower go.unicodeToLower c1).data.splitOn '/',
            e ≠ [] ∧ e ≠ ['.'] ∧ e ≠ ['.', '.'] ∧ ∀ c ∈ e, pathChar c = true) →
          ((New key).CurrencyPrice go c1).URL
            = "https://api.moonpay.io/v3/currencies/" ++ stringsToLower go.unicodeToLower c1
                ++ "/price") := by
  refine ⟨?_, rfl, rfl, ?_⟩
  · unfold Moonpay.CurrencyPrice
    rw [h]
  · intro helems
    have hseg : ∀ s ∈ ['c', 'u', 'r', 'r', 'e', 'n', 'c', 'i', 'e', 's']
        :: ((stringsToLower go.unicodeToLower c1).data.splitOn '/'
          ++ [['p', 'r', 'i', 'c', 'e']]),
        s ≠ [] ∧ s ≠ ['.'] ∧ s ≠ ['.', '.'] ∧ ∀ c ∈ s, pathChar c = true := by
      intro s hs
      simp only [List.mem_cons, List.mem_append, List.mem_singleton, List.not_mem_nil,
        or_false] at hs
      rcases hs with hs | hs | hs
      · rw [hs]; decide
      · exact helems s hs
      · rw [hs]; decide
    have hfmt : (fmtSprintf go.sprintfOther "/currencies/%s/price"
          [Arg.str (stringsToLower go.unicodeToLower c1)]).data
        = ((['c', 'u', 'r', 'r', 'e', 'n', 'c', 'i', 'e', 's']
            :: ((stringsToLower go.unicodeToLower c1).data.splitOn '/'
              ++ [['p', 'r', 'i', 'c', 'e']])).map fun s => '/' :: s).flatten := by
      rw [fmtSprintf_price go.sprintfOther (Arg.str (stringsToLower go.unicodeToLower c1))]
      simp only [List.map_cons, List.map_append, List.map_nil, List.flatten_cons,
        List.flatten_append, List.flatten_nil, List.append_nil,
        ← slash_cons_eq_flatten (stringsToLower go.unicodeToLower c1).data]
      simp [Arg.render]
    show (New key).url go.sprintfOther "/currencies/%s/price"
      [Arg.str (stringsToLower go.unicodeToLower c1)] = _
    rw [url_clean_segments go.sprintfOther key _ _ _ hseg hfmt]
    apply String.ext
    simp only [String.data_append, List.map_cons, List.map_append, List.map_nil,
      List.flatten_cons, List.flatten_append, List.flatten_nil, List.append_nil,
      ← slash_cons_eq_flatten (stringsToLower go.unicodeToLower c1).data]
    simp

/-- C9 amended, at the codes `USDC_Polygon` and `usdc_polygon`. -/
theorem CurrencyPrice_same_lower_same_request_witness :
    (New "pk").CurrencyPrice exampleLib "USDC_Polygon"
        = (New "pk").CurrencyPrice exampleLib "usdc_polygon"
      ∧ ((New "pk").CurrencyPrice exampleLib "USDC_Polygon").URL
          = "https://api.moonpay.io/v3/currencies/usdc_polygon/price" :=
  ⟨(CurrencyPrice_same_lower_same_request exampleLib "pk" "USDC_Polygon" "usdc_polygon"
      (by decide)).1,
    (CurrencyPrice_same_lower_same_request exampleLib "pk" "USDC_Polygon" "usdc_polygon"
      (by decide)).2.2.2 (by decide)⟩

/-- C10 fails: for the currency code `../../x` the URL of `CurrencyPrice`, which is
the string `url` returns, is `https://api.moonpay.io/x/price`, and it does not begin
with `https://api.moonpay.io/v3`. -/
theorem url_leaves_v3 :
    ((New "pk").CurrencyPrice exampleLib "../../x").URL
        = (New "pk").url exampleLib.sprintfOther "/currencies/%s/price" [Arg.str "../../x"]
      ∧ (New "pk").url exampleLib.sprintfOther "/currencies/%s/price" [Arg.str "../../x"]
        = "https://api.moonpay.io/x/price"
      ∧ ¬ ∃ rest : String,
          (New "pk").url exampleLib.sprintfOther "/currencies/%s/price" [Arg.str "../../x"]
              = "https://api.moonpay.io/v3" ++ rest
            ∧ (rest = "" ∨ ∃ t : String, rest = "/" ++ t) := by
  have hurl : (New "pk").url exampleLib.sprintfOther "/currencies/%s/price"
      [Arg.str "../../x"] = "https://api.moonpay.io/x/price" := by decide
  refine ⟨rfl, hurl, ?_⟩
  rintro ⟨rest, h, _⟩
  rw [hurl] at h
  have hd := congrArg String.data h
  rw [String.data_append] at hd
  simp at hd

/-- C10, amended: the string `url` returns always begins with
`https://api.moonpay.io/`; it begins with `https://api.moonpay.io/v3` followed by the
end of the string or by `/` whenever no element of the formatted sub-path is `..`, so
for every currency code whose lower-case form has no element `..`; and for every id
the URLs of `DeleteCard` and `Transaction` are `https://api.moonpay.io/v3/cards/<id>`
and `https://api.moonpay.io/v3/transactions/<id>`. -/
theorem url_under_base (go : GoLib) (key : String) :
    (∀ (p : String) (a : List Arg),
        (∃ rest : String, (New key).url go.sprintfOther p a = "https://api.moonpay.io/" ++ rest)
          ∧ (['.', '.'] ∉ (fmtSprintf go.sprintfOther p a).data.splitOn '/' →
              ∃ rest : String,
                (New key).url go.sprintfOther p a = "https://api.moonpay.io/v3" ++ rest
                  ∧ (rest = "" ∨ ∃ t : String, rest = "/" ++ t)))
      ∧ (∀ crypto : String,
          ['.', '.'] ∉ (stringsToLower go.unicodeToLower crypto).data.splitOn '/' →
            ∃ rest : String,
              ((New key).CurrencyPrice go crypto).URL = "https://api.moonpay.io/v3" ++ rest
                ∧ (rest = "" ∨ ∃ t : String, rest = "/" ++ t))
      ∧ ∀ (t : String) (id : UUID),
          (((New key).Customer t).DeleteCard go id).URL
              = "https://api.moonpay.io/v3/cards/" ++ id.String
            ∧ (((New key).Customer t).Transaction go id).URL
              = "https://api.moonpay.io/v3/transactions/" ++ id.String := by
  refine ⟨fun p a => ⟨url_on_host go.sprintfOther key p a, url_under_v3 go.sprintfOther key p a⟩,
    ?_, fun t id => url_id go.sprintfOther key id⟩
  intro crypto h
  apply url_under_v3 go.sprintfOther key "/currencies/%s/price"
    [Arg.str (stringsToLower go.unicodeToLower crypto)]
  rw [fmtSprintf_price go.sprintfOther (Arg.str (stringsToLower go.unicodeToLower crypto))]
  exact splitOn_price _ h

/-- C10 amended, at the template `/currencies/%s/price` with the code `eth`, and at
the currency code `x.y/.z`. -/
theorem url_under_base_witness :
    (∃ rest : String,
        (New "pk").url exampleLib.sprintfOther "/currencies/%s/price" [Arg.str "eth"]
            = "https://api.moonpay.io/v3" ++ rest
          ∧ (rest = "" ∨ ∃ t : String, rest = "/" ++ t))
      ∧ ∃ rest : String,
          ((New "pk").CurrencyPrice exampleLib "x.y/.z").URL = "https://api.moonpay.io/v3" ++ rest
            ∧ (rest = "" ∨ ∃ t : String, rest = "/" ++ t) :=
  ⟨((url_under_base exampleLib "pk").1 "/currencies/%s/price" [Arg.str "eth"]).2 (by decide),
    (url_under_base exampleLib "pk").2.1 "x.y/.z" (by decide)⟩

/-- C11: when `Errors` is non-empty and every entry has an empty (or nil) `Constraints`
map, `Error()` is the empty string, whatever `Message` and `Status` are: the fall-back
to them is decided by the entries of `Errors`, not by their constraint messages. -/
theorem Error_empty_without_constraints (e : RespError) (h : e.Errors ≠ [])
    (hc : ∀ er ∈ e.Errors, er.Constraints = []) : e.Error = "" := by
  have hlen : e.Errors.length > 0 := List.length_pos.mpr h
  have hflat :
      (e.Errors.map fun er => er.Constraints.map fun kv => fmtSprint kv.2).flatten = [] := by
    rw [List.flatten_eq_nil_iff]
    intro l hl
    obtain ⟨er, her, rfl⟩ := List.mem_map.mp hl
    rw [hc er her]
    rfl
  unfold RespError.Error
  rw [if_pos hlen, appendErrors_eq, hflat]
  rfl

/-- C11, at a 400 body with a message and two entries that carry no constraint. -/
theorem Error_empty_without_constraints_witness :
    (RespError.mk "400 Bad Request"
        [⟨[], "x", "email", []⟩, ⟨[("id", Any.null)], "", "code", []⟩]
        "Bad request" "BadRequestError").Error = "" :=
  Error_empty_without_constraints
    (RespError.mk "400 Bad Request"
      [⟨[], "x", "email", []⟩, ⟨[("id", Any.null)], "", "code", []⟩]
      "Bad request" "BadRequestError")
    (by simp) (by decide)

end MoonpayGo
